import Mathlib

/-! Shallow embedding of the timemanager repository (src/timemanager/common.py):
the extended-time order `TimewithInf`, the half-open interval type `TimeRange`,
the disjoint-interval-set type `DisjointTimeRanges`, and the sorted time-series
dictionary `TimeSeries`.

Times are modelled as integers: the value of a `numpy.datetime64` in a fixed
base unit (for the concrete inputs below, days since the 1970-01-01 epoch).
NumPy and Python facts baked into the embedding, each noted where used:

* a `numpy.datetime64` scalar is falsy exactly when its underlying integer is
  zero, i.e. when it denotes the 1970-01-01 epoch instant; `None` is falsy;
  a non-empty string and a `TimewithInf` object are always truthy;
* `np.datetime64(None)` is `NaT`; every `<`, `<=`, `==` test involving `NaT`
  is false;
* Python `a and b` yields `a` when `a` is falsy and `b` otherwise; `a or b`
  yields `a` when `a` is truthy and `b` otherwise;
* `functools.total_ordering` derives `a <= b` as `a < b or a == b` and
  `a > b` as `not (a < b or a == b)` from the class's `__lt__` and `__eq__`;
* adding a Python `float` (such as `np.inf`) to a `np.timedelta64` raises
  `UFuncTypeError`; `int + np.timedelta64`, `int + float`, `float + float`
  all succeed;
* `list.sort(key=...)` is a stable sort by the key tuples, compared
  lexicographically with the component orders.
-/

namespace TimeManager

/-- TimewithInf: time extended with positive and negative infinity.
`fin t` is a finite `np.datetime64` whose integer value is `t`. -/
inductive ETime where
  | ninf
  | fin (t : Int)
  | inf
deriving DecidableEq, Repr

namespace ETime

/-- TimewithInf.__lt__ : `inf` is below nothing, `ninf` is below everything
but itself, finite values compare by value. -/
def lt : ETime → ETime → Bool
  | .inf, _ => false
  | .ninf, .ninf => false
  | .ninf, _ => true
  | .fin _, .ninf => false
  | .fin _, .inf => true
  | .fin a, .fin b => decide (a < b)

/-- TimewithInf.__le__, as produced by `functools.total_ordering`:
`a <= b` is `a < b or a == b`.  `TimewithInf.__eq__` compares the stored
values after a type check, which coincides with structural equality here. -/
def le (a b : ETime) : Bool := lt a b || (a == b)

/-- Python `max(a, b)`: returns `b` when `b > a` (that is, `a < b`), else `a`. -/
def pyMax (a b : ETime) : ETime := if lt a b then b else a

/-- Python `min(a, b)`: returns `b` when `b < a`, else `a`. -/
def pyMin (a b : ETime) : ETime := if lt b a then b else a

/-- TimewithInf.time_or_none: the finite value, or `None` for an infinity. -/
def timeOrNone : ETime → Option Int
  | .fin t => some t
  | _ => Option.none

end ETime

/-- The kinds of value accepted by `TimeRange.__init__` for a bound:
Python `None`, a date string, a typed `np.datetime64`, or a `TimewithInf`
object.  They differ in Python truthiness: `None` is falsy, a date string and
a `TimewithInf` object are truthy, and a `np.datetime64` is truthy iff its
value is nonzero (the 1970-01-01 epoch is falsy). -/
inductive TInput where
  | pynone
  | str (t : Int)
  | dt64 (t : Int)
  | twi (e : ETime)
deriving DecidableEq, Repr

/-- Truthiness of a stored bound (`None` or a `np.datetime64` value):
falsy iff `None` or the epoch value 0. -/
def npTruthy : Option Int → Bool
  | Option.none => false
  | some t => t != 0

/-- TimeRange: the stored fields of a constructed object.
`start`/`end_` mirror `self.start`/`self.end` (`np.datetime64` or `None`);
`startObj`/`endObj` mirror `self._start_obj`/`self._end_obj`;
`durZero`/`durInf` are the truthiness of `self.is_duration_zero` and the
value of `self.is_duration_inf` (only their truthiness is ever consumed). -/
structure TR where
  start : Option Int
  end_ : Option Int
  startObj : ETime
  endObj : ETime
  durZero : Bool
  durInf : Bool
deriving DecidableEq, Repr

/-- The start-bound branch of `TimeRange.__init__`:
for a `TimewithInf` object, `self.start = start.time_or_none()` and
`self._start_obj = start`; otherwise `self.start = start and
np.datetime64(start)` and `self._start_obj = TimewithInf(start or -np.inf)`.
Note the slip: a falsy bound (Python `None`, but also a typed `np.datetime64`
at the epoch) makes `start or -np.inf` evaluate to `-np.inf`. -/
def startPair : TInput → Option Int × ETime
  | .twi e => (e.timeOrNone, e)
  | .pynone => (Option.none, .ninf)
  | .str t => (some t, .fin t)
  | .dt64 t => (some t, if t == 0 then .ninf else .fin t)

/-- The end-bound branch of `TimeRange.__init__`; the falsy default is
`np.inf` instead of `-np.inf`. -/
def endPair : TInput → Option Int × ETime
  | .twi e => (e.timeOrNone, e)
  | .pynone => (Option.none, .inf)
  | .str t => (some t, .fin t)
  | .dt64 t => (some t, if t == 0 then .inf else .fin t)

/-- TimeRange.__init__.  `is_duration_zero = self.start and self.end and
(self.start >= self.end)` (recorded as its truthiness), and
`is_duration_inf = (self.start is None) or (self.end is None)`. -/
def mkTR (s e : TInput) : TR :=
  let sp := startPair s
  let ep := endPair e
  { start := sp.1
    end_ := ep.1
    startObj := sp.2
    endObj := ep.2
    durZero := npTruthy sp.1 && npTruthy ep.1 && decide ((ep.1.getD 0) ≤ (sp.1.getD 0))
    durInf := sp.1.isNone || ep.1.isNone }

/-- How a stored raw bound (`self.start`, `np.datetime64` or `None`) is passed
back into a `TimeRange(...)` constructor call. -/
def toTInput : Option Int → TInput
  | Option.none => .pynone
  | some t => .dt64 t

/-- `TimeRange(a, b)` where `a`, `b` are stored raw bounds. -/
def mkTRraw (s e : Option Int) : TR := mkTR (toTInput s) (toTInput e)

/-- TimeRange.zero_range(): `TimeRange('2020-01-01', '2020-01-01')`
(2020-01-01 is day 18262). -/
def zeroRange : TR := mkTR (.str 18262) (.str 18262)

namespace TR

/-- TimeRange.__bool__: `not self.is_duration_zero`. -/
def boolv (r : TR) : Bool := !r.durZero

/-- Duration values produced by the code: the Python `int` 0, a
`np.timedelta64`, or the float `np.inf`. -/
inductive PyDur where
  | pyint (z : Int)
  | pytd (n : Int)
  | pyinf
deriving DecidableEq, Repr

/-- TimeRange.duration(): 0 when flagged zero, `np.inf` when flagged
infinite, else `self.end - self.start` (a `np.timedelta64`). -/
def duration (r : TR) : PyDur :=
  if r.durZero then .pyint 0
  else if r.durInf then .pyinf
  else .pytd ((r.end_.getD 0) - (r.start.getD 0))

/-- `self._start_obj <= t` where `t` is a raw value (`np.datetime64` or
`None`); `TimewithInf.__lt__`/`__eq__` convert `t` with `TimewithInf(t)`,
and `TimewithInf(None)` stores `NaT`, for which every comparison and
equality test is false (so `a <= NaT` holds only via `a < NaT`, i.e. only
when `a` is `-inf`). -/
def lePyNaT (a : ETime) : Option Int → Bool
  | Option.none => a == .ninf
  | some v => ETime.le a (.fin v)

/-- `t < self._end_obj` for a raw `t`.  For `t = None` Python resolves this
through the reflected `__gt__`, giving `not (b < NaT or b == NaT)`, i.e.
true unless `b` is `-inf`. -/
def ltPyNaT : Option Int → ETime → Bool
  | Option.none, b => !(b == .ninf)
  | some v, b => ETime.lt (.fin v) b

/-- TimeRange.contains(t): `self._start_obj <= t < self._end_obj`. -/
def contains (r : TR) (t : Option Int) : Bool :=
  lePyNaT r.startObj t && ltPyNaT t r.endObj

/-- TimeRange.overlaps(other): false when either is flagged zero-duration,
else `self.contains(other.start) or other.contains(self.start)`. -/
def overlaps (r o : TR) : Bool :=
  if r.durZero || o.durZero then false
  else r.contains o.start || o.contains r.start

/-- TimeRange.continuous(other):
`self._start_obj == other._end_obj or self._end_obj == other._start_obj`. -/
def continuous (r o : TR) : Bool :=
  (r.startObj == o.endObj) || (r.endObj == o.startObj)

/-- TimeRange.intersection(other):
`TimeRange(max(starts), min(ends))` on the `_obj` bounds. -/
def intersection (r o : TR) : TR :=
  mkTR (.twi (ETime.pyMax r.startObj o.startObj))
       (.twi (ETime.pyMin r.endObj o.endObj))

/-- The merged branch of TimeRange.union(other):
`TimeRange(min(starts), max(ends))` on the `_obj` bounds. -/
def unionMerge (r o : TR) : TR :=
  mkTR (.twi (ETime.pyMin r.startObj o.startObj))
       (.twi (ETime.pyMax r.endObj o.endObj))

/-- TimeRange.__eq__: `self.start == other.start and self.end == other.end`
on the raw stored bounds (`None == None` is true, `None == datetime` false,
values compare by equality). -/
def eqRaw (a b : TR) : Bool := a.start == b.start && a.end_ == b.end_

end TR

/-- The sort key comparison used by `_consolidate_ranges`:
`(r._start_obj, r._end_obj)` tuples compared lexicographically. -/
def keyLt (a b : TR) : Bool :=
  ETime.lt a.startObj b.startObj ||
    (a.startObj == b.startObj && ETime.lt a.endObj b.endObj)

/-- Stable insertion of one element into a key-sorted list. -/
def insertTR (r : TR) : List TR → List TR
  | [] => [r]
  | x :: xs => if keyLt x r then x :: insertTR r xs else r :: x :: xs

/-- Stable sort by `(start_obj, end_obj)`, extensionally the Python
`list.sort(key=lambda r: (r._start_obj, r._end_obj))` (both are stable sorts
by the same key). -/
def sortRanges : List TR → List TR
  | [] => []
  | x :: xs => insertTR x (sortRanges xs)

/-- The merging scan of `_consolidate_ranges`: walk the sorted list; when
`ranges[i-1]` overlaps or is continuous with `ranges[i]`, replace `ranges[i]`
by `ranges[i] | ranges[i-1]` (the merged union, since the branch condition
makes `union` take its single-interval branch); otherwise keep `ranges[i-1]`
as a parent.  The last element is always kept. -/
def consolidateScan : TR → List TR → List TR
  | cur, [] => [cur]
  | cur, nxt :: rest =>
    if cur.overlaps nxt || cur.continuous nxt then
      consolidateScan (nxt.unionMerge cur) rest
    else
      cur :: consolidateScan nxt rest

/-- DisjointTimeRanges._consolidate_ranges: sort, scan-merge, keep the
parents that are truthy (dropping ranges flagged zero-duration), sort again. -/
def consolidate (l : List TR) : List TR :=
  match sortRanges l with
  | [] => []
  | c :: rest => sortRanges ((consolidateScan c rest).filter TR.boolv)

/-- DisjointTimeRanges: the stored list of ranges. -/
structure DTR where
  ranges : List TR
deriving DecidableEq, Repr

/-- DisjointTimeRanges(ranges): the constructor consolidates the given list. -/
def mkDTR (l : List TR) : DTR := ⟨consolidate l⟩

/-- Result type of operations that return either a single TimeRange or a
DisjointTimeRanges. -/
inductive TRorDTR where
  | tr (r : TR)
  | dtr (d : DTR)
deriving DecidableEq, Repr

namespace TR

/-- TimeRange.union(other): the single spanning interval when the two overlap
or are continuous, else `DisjointTimeRanges([self, other])`. -/
def union (r o : TR) : TRorDTR :=
  if r.overlaps o || r.continuous o then .tr (r.unionMerge o)
  else .dtr (mkDTR [r, o])

/-- TimeRange.__sub__(other): when the intersection is truthy, collect the
left and right remainders (constructed from the raw stored bounds) into a
DisjointTimeRanges; otherwise return `self` unchanged. -/
def sub (r o : TR) : TRorDTR :=
  let ix := r.intersection o
  if ix.boolv then
    let l1 := if ETime.lt r.startObj ix.startObj then [mkTRraw r.start ix.start] else []
    let l2 := if ETime.lt ix.endObj r.endObj then [mkTRraw ix.end_ r.end_] else []
    .dtr (mkDTR (l1 ++ l2))
  else .tr r

end TR

namespace DTR

/-- DisjointTimeRanges.__bool__: `return len(self.ranges) == 0`
(written exactly as in the source). -/
def toBool (d : DTR) : Bool := d.ranges.length == 0

/-- Python `+` on the duration values occurring in
`sum([r.duration() for r in self.ranges])` (the sum starts from the int 0).
`int + int`, `int + timedelta64`, `timedelta64 + timedelta64`,
`int + inf` and `inf + inf` succeed, but adding the float `np.inf` and a
`np.timedelta64` (in either order) raises `UFuncTypeError`, modelled as
`Option.none`. -/
def pyAdd : TR.PyDur → TR.PyDur → Option TR.PyDur
  | .pyint a, .pyint b => some (.pyint (a + b))
  | .pyint a, .pytd n => some (.pytd (a + n))
  | .pyint _, .pyinf => some .pyinf
  | .pytd n, .pyint b => some (.pytd (n + b))
  | .pytd a, .pytd b => some (.pytd (a + b))
  | .pytd _, .pyinf => Option.none
  | .pyinf, .pyint _ => some .pyinf
  | .pyinf, .pytd _ => Option.none
  | .pyinf, .pyinf => some .pyinf

/-- DisjointTimeRanges.duration(): `sum([r.duration() for r in self.ranges])`,
with `Option.none` when the sum raises. -/
def duration (d : DTR) : Option TR.PyDur :=
  d.ranges.foldl (fun acc r => acc.bind (fun a => pyAdd a r.duration))
    (some (.pyint 0))

/-- DisjointTimeRanges.union(other : TimeRange): consolidate self in place,
build `DisjointTimeRanges(self.ranges + [other])` (which consolidates), then
consolidate the result once more. -/
def unionTR (d : DTR) (o : TR) : DTR :=
  ⟨consolidate (consolidate (consolidate d.ranges ++ [o]))⟩

/-- DisjointTimeRanges.__eq__(other : TimeRange):
`len(self.ranges) == 1 and self.ranges[0] == other`. -/
def eqTR (d : DTR) (o : TR) : Bool :=
  match d.ranges with
  | [r] => TR.eqRaw r o
  | _ => false

end DTR

/-- `x | other` where `x` is the TimeRange-or-DisjointTimeRanges result of a
previous operation and `other` a TimeRange. -/
def trodUnionTR : TRorDTR → TR → TRorDTR
  | .tr r, o => r.union o
  | .dtr d, o => .dtr (d.unionTR o)

/-- `x == other` for a TimeRange-or-DisjointTimeRanges `x` against a
TimeRange. -/
def trodEqTR : TRorDTR → TR → Bool
  | .tr r, o => TR.eqRaw r o
  | .dtr d, o => d.eqTR o

/-- The Python expression `((a - b) | (a & b)) == a` for TimeRanges. -/
def deMorganTR (a b : TR) : Bool :=
  trodEqTR (trodUnionTR (a.sub b) (a.intersection b)) a

/-- `np.arange(a, b, 1)` on integers: `a, a+1, ..., b-1` (empty when
`b <= a`). -/
def arangeInt (a b : Int) : List Int :=
  (List.range (b - a).toNat).map (fun i => a + i)

/-- TimeRange.to_array(unit): raises unless `self.start and self.end` is
truthy (note: a bound stored as the falsy epoch `np.datetime64` also fails
this guard), else `np.arange(start.astype(unit), end.astype(unit), 1 unit)`.
`k` is the positive number of base ticks per requested unit; `astype` to a
coarser unit floor-divides the underlying value. -/
def toArray (r : TR) (k : Int) : Except String (List Int) :=
  if !(npTruthy r.start && npTruthy r.end_) then
    Except.error "Operation not supported for infinite time ranges."
  else
    Except.ok (arangeInt ((r.start.getD 0).fdiv k) ((r.end_.getD 0).fdiv k))

/-- TimeSeries: a SortedDict from time keys to values; the invariant
maintained by SortedDict is that `items` is sorted by strictly increasing
key. -/
structure TimeSeries (V : Type) where
  items : List (Int × V)
deriving DecidableEq, Repr

namespace TimeSeries

variable {V : Type}

/-- The sorted key list of the dictionary. -/
def keys (s : TimeSeries V) : List Int := s.items.map Prod.fst

/-- SortedList.bisect_left: the insertion index of `t` keeping sorted order,
placing `t` before equal keys; on a sorted list this is the number of keys
strictly below `t`. -/
def bisect_left (ks : List Int) (t : Int) : Nat :=
  ks.countP (fun k => decide (k < t))

/-- SortedList.bisect_right: the insertion index of `t` placing it after
equal keys; on a sorted list this is the number of keys at or below `t`. -/
def bisect_right (ks : List Int) (t : Int) : Nat :=
  ks.countP (fun k => decide (k ≤ t))

/-- TimeSeries._peekitem_only_positive(i): raise IndexError when `i < 0`
(so a bisection result of -1 fails rather than wrapping around to the last
item), else `self.peekitem(i)`, which itself raises IndexError when `i` is
past the end. -/
def peekitem_only_positive (s : TimeSeries V) (i : Int) : Except String (Int × V) :=
  if i < 0 then Except.error "list index out of range"
  else
    match s.items[i.toNat]? with
    | some p => Except.ok p
    | Option.none => Except.error "list index out of range"

/-- TimeSeries.last_include_now: the pair at `bisect_right(key) - 1`
(at-or-before lookup). -/
def last_include_now (s : TimeSeries V) (t : Int) : Except String (Int × V) :=
  peekitem_only_positive s ((bisect_right s.keys t : Int) - 1)

/-- TimeSeries.last_exclude_now: the pair at `bisect_left(key) - 1`
(strictly-before lookup). -/
def last_exclude_now (s : TimeSeries V) (t : Int) : Except String (Int × V) :=
  peekitem_only_positive s ((bisect_left s.keys t : Int) - 1)

/-- TimeSeries.next_include_now: the pair at `bisect_left(key)`
(at-or-after lookup). -/
def next_include_now (s : TimeSeries V) (t : Int) : Except String (Int × V) :=
  peekitem_only_positive s ((bisect_left s.keys t : Int))

/-- TimeSeries.next_exclude_now: the pair at `bisect_right(key)`
(strictly-after lookup). -/
def next_exclude_now (s : TimeSeries V) (t : Int) : Except String (Int × V) :=
  peekitem_only_positive s ((bisect_right s.keys t : Int))

end TimeSeries

end TimeManager

namespace TimeManager

/-! Basic facts about the extended-time order and the consolidation sort key. -/

theorem ETime.lt_irrefl (x : ETime) : ETime.lt x x = false := by
  cases x <;> simp [ETime.lt]

theorem ETime.lt_asymm {x y : ETime} (h : ETime.lt x y = true) :
    ETime.lt y x = false := by
  cases x <;> cases y <;> simp_all [ETime.lt] <;> omega

theorem ETime.lt_ne {x y : ETime} (h : ETime.lt x y = true) : x ≠ y := by
  cases x <;> cases y <;> simp_all [ETime.lt] <;> omega

theorem ETime.beq_comm (x y : ETime) : (x == y) = (y == x) := by
  by_cases h : x = y
  · subst h; rfl
  · have h1 : (x == y) = false := by simp [h]
    have h2 : (y == x) = false := by simp [Ne.symm h]
    rw [h1, h2]

theorem TR.overlaps_comm (a b : TR) : a.overlaps b = b.overlaps a := by
  simp only [TR.overlaps]
  by_cases h1 : a.durZero <;> by_cases h2 : b.durZero <;>
    simp [h1, h2, Bool.or_comm]

theorem TR.continuous_comm (a b : TR) : a.continuous b = b.continuous a := by
  simp only [TR.continuous]
  rw [Bool.or_comm, ETime.beq_comm a.endObj b.startObj,
    ETime.beq_comm a.startObj b.endObj]

theorem keyLt_asymm {a b : TR} (h : keyLt a b = true) : keyLt b a = false := by
  rw [Bool.eq_false_iff]
  intro hcon
  simp only [keyLt, Bool.or_eq_true, Bool.and_eq_true, beq_iff_eq] at h hcon
  rcases h with h | ⟨he, hl⟩ <;> rcases hcon with hc | ⟨hce, hcl⟩
  · rw [ETime.lt_asymm h] at hc; exact Bool.noConfusion hc
  · exact (ETime.lt_ne h) hce.symm
  · exact (ETime.lt_ne hc) he.symm
  · rw [ETime.lt_asymm hl] at hcl; exact Bool.noConfusion hcl

end TimeManager

namespace TimeManager

/-! Claim theorems for the interval subsystem.  Day numbers used below:
1960-01-01 = -3653, 1970-01-01 = 0, 1970-01-02 = 1, 1970-01-03 = 2,
1980-01-01 = 3652, 1990-01-01 = 7305, 2020-01-01 = 18262 (and consecutive
days 18263..18271 for 2020-01-02..2020-01-10), 2020-02-01 = 18293,
2020-03-01 = 18322, 2021-01-01 = 18628, 2021-02-01 = 18659. -/

/-- C1: the claim says `bool(S)` is False for an IntervalSet with zero
members and True for one with a non-empty member.  The code's
`DisjointTimeRanges.__bool__` returns `len(self.ranges) == 0`, which is the
exact inversion: the empty set is truthy and a one-member set is falsy
(while `TimeRange.__bool__` behaves as the spec says). -/
theorem dtr_bool_is_inverted :
    (mkDTR []).toBool = true ∧
    (mkDTR [mkTR (.str 18262) (.str 18263)]).ranges.length = 1 ∧
    (mkDTR [mkTR (.str 18262) (.str 18263)]).toBool = false ∧
    (mkTR (.str 18262) (.str 18263)).boolv = true :=
  ⟨rfl, rfl, rfl, rfl⟩

/-- C2 (counterexample): intersecting `TimeRange('2020-01-01','2020-01-02')`
with the disjoint `TimeRange('2020-01-03','2020-01-04')` produces an object
whose stored bounds are start = 2020-01-03 and end = 2020-01-02, i.e. with
start strictly greater than end in the extended order — such an interval IS
produced, contrary to the claim. -/
theorem intersection_disjoint_produces_inverted_bounds :
    (TR.intersection (mkTR (.str 18262) (.str 18263))
        (mkTR (.str 18264) (.str 18265))).start = some 18264 ∧
    (TR.intersection (mkTR (.str 18262) (.str 18263))
        (mkTR (.str 18264) (.str 18265))).end_ = some 18263 ∧
    ETime.lt
      (TR.intersection (mkTR (.str 18262) (.str 18263))
        (mkTR (.str 18264) (.str 18265))).endObj
      (TR.intersection (mkTR (.str 18262) (.str 18263))
        (mkTR (.str 18264) (.str 18265))).startObj = true :=
  ⟨rfl, rfl, rfl⟩

/-- C2 (amended): the constructor does not reject or normalize the stored
bounds, but whenever a constructed interval's effective bounds are finite,
distinct from the epoch, and inverted (end strictly below start), the object
is flagged zero-duration (`is_duration_zero` truthy) and is treated as empty:
its boolean conversion is False. -/
theorem mkTR_inverted_finite_nonepoch_bounds_flagged_empty
    (s e : TInput) (a b : Int)
    (hsa : (mkTR s e).startObj = ETime.fin a)
    (heb : (mkTR s e).endObj = ETime.fin b)
    (ha : a ≠ 0) (hb : b ≠ 0) (hba : b < a) :
    (mkTR s e).durZero = true ∧ (mkTR s e).boolv = false := by
  have h : (mkTR s e).durZero = true := by
    cases s <;> cases e <;>
      simp only [mkTR, startPair, endPair, ETime.timeOrNone] at hsa heb ⊢ <;>
      (try split at hsa) <;> (try split at heb) <;>
      simp_all [npTruthy, ETime.timeOrNone] <;> omega
  exact ⟨h, by simp [TR.boolv, h]⟩

/-- C2 (witness): the inverted-bounds interval produced by the intersection
of two disjoint day intervals is flagged empty. -/
theorem mkTR_inverted_finite_nonepoch_bounds_flagged_empty_witness :
    (mkTR (.twi (.fin 18264)) (.twi (.fin 18263))).startObj = ETime.fin 18264 ∧
    (mkTR (.twi (.fin 18264)) (.twi (.fin 18263))).durZero = true ∧
    (mkTR (.twi (.fin 18264)) (.twi (.fin 18263))).boolv = false :=
  ⟨rfl,
    (mkTR_inverted_finite_nonepoch_bounds_flagged_empty
      (.twi (.fin 18264)) (.twi (.fin 18263)) 18264 18263 rfl rfl
      (by decide) (by decide) (by decide)).1,
    (mkTR_inverted_finite_nonepoch_bounds_flagged_empty
      (.twi (.fin 18264)) (.twi (.fin 18263)) 18264 18263 rfl rfl
      (by decide) (by decide) (by decide)).2⟩

/-- C3: the claim says `to_array` raises "range unbounded" iff a bound is
infinite, and returns the stepped sequence for every bounded non-empty
interval including one starting at the numpy epoch.  The guard
`if not (self.start and self.end)` also fires for the falsy epoch value:
`TimeRange('1970-01-01','1970-01-03')` (both bounds finite,
`is_duration_inf` false) raises, while the claim says it must return the
two instants 1970-01-01 and 1970-01-02.  A non-epoch bounded interval and a
genuinely unbounded one behave as claimed. -/
theorem toArray_rejects_bounded_epoch_start :
    (toArray (mkTR (.str 0) (.str 2)) 1 =
        Except.error "Operation not supported for infinite time ranges." ∧
      (mkTR (.str 0) (.str 2)).durInf = false) ∧
    toArray (mkTR (.str 1) (.str 3)) 1 = Except.ok [1, 2] ∧
    toArray (mkTR .pynone (.str 2)) 1 =
      Except.error "Operation not supported for infinite time ranges." :=
  ⟨⟨rfl, rfl⟩, rfl, rfl⟩

/-- C4: the claim says `duration()` of a set with an unbounded member
returns the infinite sentinel regardless of how many bounded members there
are.  A set of one unbounded member alone does return `np.inf`, but with an
additional bounded member the Python sum evaluates `np.inf + timedelta64`,
which raises (`UFuncTypeError`), modelled as `Option.none`:
`DisjointTimeRanges([TimeRange(None,'2020-01-01'),
TimeRange('2020-02-01','2020-03-01')]).duration()` fails. -/
theorem dtr_duration_mixed_unbounded_raises :
    (mkTR .pynone (.str 18262)).duration = TR.PyDur.pyinf ∧
    (mkDTR [mkTR .pynone (.str 18262)]).duration = some TR.PyDur.pyinf ∧
    (mkDTR [mkTR .pynone (.str 18262),
            mkTR (.str 18293) (.str 18322)]).ranges.length = 2 ∧
    (mkDTR [mkTR .pynone (.str 18262),
            mkTR (.str 18293) (.str 18322)]).duration = Option.none :=
  ⟨rfl, rfl, rfl, rfl⟩

/-- C6: the claim says the constructor always yields a canonical member
list with no two members overlapping.  But `_consolidate_ranges` drops the
empty ranges only after the merging scan: with the empty
`TimeRange('2020-01-05','2020-01-05')` sitting between
`TimeRange('2020-01-01','2020-01-10')` and
`TimeRange('2020-01-06','2020-01-08')` (which overlap each other), the scan
compares only adjacent entries, merges nothing, and the resulting set
retains two overlapping members. -/
theorem consolidate_retains_overlapping_members :
    (mkDTR [mkTR (.str 18262) (.str 18271), mkTR (.str 18266) (.str 18266),
        mkTR (.str 18267) (.str 18269)]).ranges =
      [mkTR (.str 18262) (.str 18271), mkTR (.str 18267) (.str 18269)] ∧
    TR.overlaps (mkTR (.str 18262) (.str 18271))
      (mkTR (.str 18267) (.str 18269)) = true :=
  ⟨rfl, rfl⟩

/-- C8: overlaps returns false when either operand is empty, and otherwise
returns true exactly when the first contains the second's start or the
second contains the first's start; in particular two day intervals sharing
only the boundary 2020-01-02 do not overlap. -/
theorem overlaps_spec :
    (∀ a b : TR, a.overlaps b =
        (!a.durZero && !b.durZero &&
          (a.contains b.start || b.contains a.start))) ∧
    TR.overlaps (mkTR (.str 18262) (.str 18263))
      (mkTR (.str 18263) (.str 18264)) = false := by
  constructor
  · intro a b
    simp only [TR.overlaps]
    by_cases h1 : a.durZero <;> by_cases h2 : b.durZero <;> simp [h1, h2]
  · rfl

/-- C9: for intervals built from ordinary (non-epoch) instants the
half-open containment a <= t < b behaves as claimed (with a < b < c the
interval [a,c) contains b and a but not c).  But for an interval whose
start bound is the 1970-01-01 epoch given as a typed `np.datetime64`, the
constructor's `start or -np.inf` turns the effective lower bound into
negative infinity, and `contains` accepts the instant 1960-01-01, which
lies strictly below the stored start bound — contradicting the claim. -/
theorem contains_epoch_typed_start_below_bound :
    ((mkTR (.str 100) (.str 300)).contains (some 200) = true ∧
     (mkTR (.str 100) (.str 300)).contains (some 100) = true ∧
     (mkTR (.str 100) (.str 300)).contains (some 300) = false) ∧
    ((mkTR (.dt64 0) (.str 18262)).start = some 0 ∧
     (mkTR (.dt64 0) (.str 18262)).startObj = ETime.ninf ∧
     (mkTR (.dt64 0) (.str 18262)).contains (some (-3653)) = true) :=
  ⟨⟨rfl, rfl, rfl⟩, ⟨rfl, rfl, rfl⟩⟩

/-- C10: the claim says `(A - B) | (A & B) == A` for all intervals/sets.
For A = `TimeRange('1970-01-01','2020-01-01')` and
B = `TimeRange('1980-01-01','1990-01-01')` the left remainder of `A - B` is
built from the raw epoch bound, whose falsiness turns it into an interval
unbounded below; after consolidation the left side is
`TimeRange(None,'2020-01-01')`, which compares unequal to A.  Moving A's
start one day off the epoch makes the law hold on the same shape. -/
theorem deMorgan_fails_at_epoch :
    deMorganTR (mkTR (.str 0) (.str 18262)) (mkTR (.str 3652) (.str 7305)) =
      false ∧
    deMorganTR (mkTR (.str 1) (.str 18262)) (mkTR (.str 3652) (.str 7305)) =
      true :=
  ⟨rfl, rfl⟩

/-- C7 (counterexample): with the empty operand `TimeRange.zero_range()`
and a disjoint, non-continuous interval, `union` takes its "disjoint"
branch but the constructor's consolidation drops the empty operand: the
result has ONE member, not the claimed two-element set containing both
operands. -/
theorem union_with_empty_operand_has_one_member :
    zeroRange.durZero = true ∧
    TR.overlaps zeroRange (mkTR (.str 18628) (.str 18659)) = false ∧
    TR.continuous zeroRange (mkTR (.str 18628) (.str 18659)) = false ∧
    TR.union zeroRange (mkTR (.str 18628) (.str 18659)) =
      TRorDTR.dtr ⟨[mkTR (.str 18628) (.str 18659)]⟩ :=
  ⟨rfl, rfl, rfl, rfl⟩

/-- C7 (amended): for two NON-empty intervals, union returns the single
spanning interval (min of starts, max of ends) exactly when the two overlap
or are continuous, and otherwise a two-element IntervalSet holding exactly
the two operands (in sorted order). -/
theorem tr_union_cases (a b : TR) (ha : a.durZero = false)
    (hb : b.durZero = false) :
    ((a.overlaps b || a.continuous b) = true →
        a.union b = TRorDTR.tr (a.unionMerge b)) ∧
    ((a.overlaps b || a.continuous b) = false →
        a.union b = TRorDTR.dtr ⟨if keyLt b a then [b, a] else [a, b]⟩) := by
  constructor
  · intro h
    simp [TR.union, h]
  · intro h
    have hsym : (b.overlaps a || b.continuous a) = false := by
      rw [TR.overlaps_comm, TR.continuous_comm]; exact h
    have hva : TR.boolv a = true := by simp [TR.boolv, ha]
    have hvb : TR.boolv b = true := by simp [TR.boolv, hb]
    have hcons : consolidate [a, b] = if keyLt b a then [b, a] else [a, b] := by
      by_cases hk : keyLt b a = true
      · have hs1 : sortRanges [a, b] = [b, a] := by
          simp [sortRanges, insertTR, hk]
        have hscan : consolidateScan b [a] = [b, a] := by
          simp [consolidateScan, hsym]
        have hkab : keyLt a b = false := keyLt_asymm hk
        simp [consolidate, hs1, hscan, hva, hvb, sortRanges, insertTR,
          hkab, hk]
      · have hk' : keyLt b a = false := by
          rw [Bool.eq_false_iff]; exact hk
        have hs1 : sortRanges [a, b] = [a, b] := by
          simp [sortRanges, insertTR, hk']
        have hscan : consolidateScan a [b] = [a, b] := by
          simp [consolidateScan, h]
        simp [consolidate, hs1, hscan, hva, hvb, sortRanges, insertTR, hk']
    simp [TR.union, h, mkDTR, hcons]

/-- C7 (witness): the abutting intervals 2020-01-01..02 and 2020-01-02..03
are continuous, and their union is the single merged interval
2020-01-01..03; a disjoint non-empty pair yields the two-element set. -/
theorem tr_union_cases_witness :
    (TR.union (mkTR (.str 18262) (.str 18263)) (mkTR (.str 18263) (.str 18264)) =
        TRorDTR.tr (TR.unionMerge (mkTR (.str 18262) (.str 18263))
          (mkTR (.str 18263) (.str 18264))) ∧
      TR.unionMerge (mkTR (.str 18262) (.str 18263))
          (mkTR (.str 18263) (.str 18264)) =
        mkTR (.twi (.fin 18262)) (.twi (.fin 18264))) ∧
    TR.union (mkTR (.str 18262) (.str 18263)) (mkTR (.str 18270) (.str 18271)) =
      TRorDTR.dtr ⟨[mkTR (.str 18262) (.str 18263),
        mkTR (.str 18270) (.str 18271)]⟩ :=
  ⟨⟨(tr_union_cases (mkTR (.str 18262) (.str 18263))
        (mkTR (.str 18263) (.str 18264)) rfl rfl).1 rfl, rfl⟩,
    by
      have := (tr_union_cases (mkTR (.str 18262) (.str 18263))
        (mkTR (.str 18270) (.str 18271)) rfl rfl).2 rfl
      simpa using this⟩

end TimeManager

namespace TimeManager

namespace TimeSeries

variable {V : Type}

theorem length_keys (s : TimeSeries V) : s.keys.length = s.items.length := by
  simp [keys]

/-- On a strictly sorted list, a downward-closed predicate holds exactly on
the prefix of length `countP`: element `i` satisfies `P` iff `i < countP P`.
This is the defining property of the bisection indices. -/
theorem sorted_countP_getElem {l : List Int} {P : Int → Bool}
    (hs : l.Pairwise (fun a b => a < b))
    (hm : ∀ a b : Int, a ≤ b → P b = true → P a = true) :
    ∀ i (h : i < l.length), (P (l[i]) = true ↔ i < l.countP P) := by
  induction l with
  | nil => intro i h; simp at h
  | cons k ks ih =>
    rw [List.pairwise_cons] at hs
    obtain ⟨hk, hs'⟩ := hs
    intro i h
    by_cases hP : P k = true
    · rw [List.countP_cons_of_pos _ _ hP]
      cases i with
      | zero => simpa using hP
      | succ j =>
        have hj : j < ks.length := by simpa using h
        have := ih hs' j hj
        simpa using this
    · have hzero : ks.countP P = 0 := by
        rw [List.countP_eq_zero]
        intro x hx hPx
        exact hP (hm k x (le_of_lt (hk x hx)) hPx)
      rw [List.countP_cons_of_neg _ _ (by simpa using hP), hzero]
      cases i with
      | zero => simpa using hP
      | succ j =>
        have hj : j < ks.length := by simpa using h
        have hmem : ks[j] ∈ ks := List.getElem_mem hj
        have hfalse : ¬ P (ks[j]) = true :=
          List.countP_eq_zero.mp hzero _ hmem
        simpa using hfalse

/-- Strict sortedness gives monotone access. -/
theorem sorted_getElem_le {l : List Int}
    (hs : l.Pairwise (fun a b => a < b)) {i j : Nat} (hij : i ≤ j)
    (hi : i < l.length) (hj : j < l.length) : l[i] ≤ l[j] := by
  rcases Nat.eq_or_lt_of_le hij with rfl | hlt
  · exact le_refl _
  · exact le_of_lt (List.pairwise_iff_getElem.mp hs i j hi hj hlt)

/-- Correctness of a "last"-style lookup, i.e. one peeking at index
`countP P - 1` (computed in ℤ): when it succeeds it returns a stored pair
whose key satisfies `P` and is the greatest such key; it fails exactly when
no stored key satisfies `P`. -/
theorem peek_last_spec (s : TimeSeries V) (P : Int → Bool)
    (hs : s.keys.Pairwise (fun a b => a < b))
    (hm : ∀ a b : Int, a ≤ b → P b = true → P a = true) :
    (∀ p, peekitem_only_positive s ((s.keys.countP P : Int) - 1) =
          Except.ok p →
        p ∈ s.items ∧ P p.1 = true ∧
          ∀ q ∈ s.items, P q.1 = true → q.1 ≤ p.1) ∧
    ((peekitem_only_positive s ((s.keys.countP P : Int) - 1)).isOk = false ↔
        ∀ q ∈ s.items, P q.1 = false) := by
  have hlen : s.keys.length = s.items.length := length_keys s
  have hle : s.keys.countP P ≤ s.keys.length := List.countP_le_length P
  by_cases h0 : s.keys.countP P = 0
  · have hneg : ((s.keys.countP P : Int) - 1) < 0 := by omega
    have herr : peekitem_only_positive s ((s.keys.countP P : Int) - 1) =
        Except.error "list index out of range" := by
      rw [peekitem_only_positive, if_pos hneg]
    constructor
    · intro p hp
      rw [herr] at hp
      exact absurd hp (by simp)
    · rw [herr]
      have hall : ∀ q ∈ s.items, P q.1 = false := by
        intro q hq
        have hk : q.1 ∈ s.keys := by
          simp only [keys]
          exact List.mem_map_of_mem Prod.fst hq
        have := List.countP_eq_zero.mp h0 _ hk
        simpa using this
      simp only [Except.isOk, Except.toBool, true_iff]
      intro q hq
      exact hall q hq
  · have hpos : 1 ≤ s.keys.countP P := Nat.one_le_iff_ne_zero.mpr h0
    have hnn : ¬ ((s.keys.countP P : Int) - 1) < 0 := by omega
    have htn : ((s.keys.countP P : Int) - 1).toNat = s.keys.countP P - 1 := by
      omega
    have hidx : s.keys.countP P - 1 < s.items.length := by omega
    have hgetq : s.items[((s.keys.countP P : Int) - 1).toNat]? =
        some (s.items[s.keys.countP P - 1]) := by
      rw [htn]
      exact List.getElem?_eq_getElem hidx
    have hok : peekitem_only_positive s ((s.keys.countP P : Int) - 1) =
        Except.ok (s.items[s.keys.countP P - 1]) := by
      rw [peekitem_only_positive, if_neg hnn, hgetq]
    have hkeyidx : s.keys.countP P - 1 < s.keys.length := by omega
    have hkeyget : s.keys[s.keys.countP P - 1] =
        (s.items[s.keys.countP P - 1]).1 := by
      simp [keys]
    have hPtop : P ((s.items[s.keys.countP P - 1]).1) = true := by
      rw [← hkeyget]
      exact (sorted_countP_getElem hs hm _ hkeyidx).mpr (by omega)
    constructor
    · intro p hp
      rw [hok] at hp
      have hp' : p = s.items[s.keys.countP P - 1] := by
        cases hp; rfl
      subst hp'
      refine ⟨List.getElem_mem hidx, hPtop, ?_⟩
      intro q hq hPq
      obtain ⟨j, hj, hqj⟩ := List.mem_iff_getElem.mp hq
      have hkj : j < s.keys.length := by omega
      have hkeygetj : s.keys[j] = (s.items[j]).1 := by
        simp [keys]
      have hPj : P (s.keys[j]) = true := by
        rw [hkeygetj, hqj]; exact hPq
      have hjlt : j < s.keys.countP P :=
        (sorted_countP_getElem hs hm _ hkj).mp hPj
      have hmono := sorted_getElem_le hs (Nat.le_sub_one_of_lt hjlt) hkj hkeyidx
      rw [hkeyget, hkeygetj] at hmono
      rw [← hqj]
      exact hmono
    · rw [hok]
      constructor
      · intro hcon
        exact absurd hcon (by simp [Except.isOk, Except.toBool])
      · intro hall
        have := hall _ (List.getElem_mem hidx)
        rw [hPtop] at this
        exact absurd this (by simp)

/-- Correctness of a "next"-style lookup, i.e. one peeking at index
`countP P` directly: when it succeeds it returns a stored pair whose key is
the least one NOT satisfying `P`; it fails exactly when every stored key
satisfies `P`. -/
theorem peek_next_spec (s : TimeSeries V) (P : Int → Bool)
    (hs : s.keys.Pairwise (fun a b => a < b))
    (hm : ∀ a b : Int, a ≤ b → P b = true → P a = true) :
    (∀ p, peekitem_only_positive s (s.keys.countP P : Int) = Except.ok p →
        p ∈ s.items ∧ P p.1 = false ∧
          ∀ q ∈ s.items, P q.1 = false → p.1 ≤ q.1) ∧
    ((peekitem_only_positive s (s.keys.countP P : Int)).isOk = false ↔
        ∀ q ∈ s.items, P q.1 = true) := by
  have hlen : s.keys.length = s.items.length := length_keys s
  have hle : s.keys.countP P ≤ s.keys.length := List.countP_le_length P
  have hnn : ¬ ((s.keys.countP P : Int)) < 0 := by omega
  by_cases hfull : s.keys.countP P = s.keys.length
  · have hget : s.items[(s.keys.countP P : Int).toNat]? = Option.none := by
      rw [List.getElem?_eq_none_iff]
      omega
    have herr : peekitem_only_positive s (s.keys.countP P : Int) =
        Except.error "list index out of range" := by
      rw [peekitem_only_positive, if_neg hnn, hget]
    constructor
    · intro p hp
      rw [herr] at hp
      exact absurd hp (by simp)
    · rw [herr]
      have hall : ∀ q ∈ s.items, P q.1 = true := by
        intro q hq
        have hk : q.1 ∈ s.keys := by
          simp only [keys]
          exact List.mem_map_of_mem Prod.fst hq
        exact List.countP_eq_length.mp hfull _ hk
      simp only [Except.isOk, Except.toBool, true_iff]
      intro q hq
      exact hall q hq
  · have hidx : s.keys.countP P < s.items.length := by omega
    have hkeyidx : s.keys.countP P < s.keys.length := by omega
    have hget : s.items[(s.keys.countP P : Int).toNat]? =
        some (s.items[s.keys.countP P]) := by
      rw [Int.toNat_natCast]
      exact List.getElem?_eq_getElem hidx
    have hok : peekitem_only_positive s (s.keys.countP P : Int) =
        Except.ok (s.items[s.keys.countP P]) := by
      rw [peekitem_only_positive, if_neg hnn, hget]
    have hkeyget : s.keys[s.keys.countP P] =
        (s.items[s.keys.countP P]).1 := by
      simp [keys]
    have hPtop : P ((s.items[s.keys.countP P]).1) = false := by
      rw [← hkeyget]
      have := (sorted_countP_getElem hs hm _ hkeyidx)
      rcases hcase : P (s.keys[s.keys.countP P]) with _ | _
      · rfl
      · exact absurd (this.mp hcase) (by omega)
    constructor
    · intro p hp
      rw [hok] at hp
      have hp' : p = s.items[s.keys.countP P] := by
        cases hp; rfl
      subst hp'
      refine ⟨List.getElem_mem hidx, hPtop, ?_⟩
      intro q hq hPq
      obtain ⟨j, hj, hqj⟩ := List.mem_iff_getElem.mp hq
      have hkj : j < s.keys.length := by omega
      have hkeygetj : s.keys[j] = (s.items[j]).1 := by
        simp [keys]
      have hPj : P (s.keys[j]) = false := by
        rw [hkeygetj, hqj]; exact hPq
      have hjge : s.keys.countP P ≤ j := by
        by_contra hcon
        have := (sorted_countP_getElem hs hm _ hkj).mpr (by omega)
        rw [hPj] at this
        exact absurd this (by simp)
      have hmono := sorted_getElem_le hs hjge hkeyidx hkj
      rw [hkeyget, hkeygetj] at hmono
      rw [← hqj]
      exact hmono
    · rw [hok]
      constructor
      · intro hcon
        exact absurd hcon (by simp [Except.isOk, Except.toBool])
      · intro hall
        have := hall _ (List.getElem_mem hidx)
        rw [hPtop] at this
        exact absurd this (by simp)

end TimeSeries

end TimeManager

namespace TimeManager

namespace TimeSeries

variable {V : Type}

/-- C5: each of the four directional lookups of TimeSeries computes its
index by the stated bisection (right-bisect minus one for at-or-before,
left-bisect minus one for strictly-before, left-bisect for at-or-after,
right-bisect for strictly-after) and returns the stored `(key, value)` pair
whose key is the nearest one satisfying the relation to the query time
(greatest key at-or-before / strictly-before, least key at-or-after /
strictly-after), and fails with an out-of-range error exactly when no
stored key satisfies the relation. -/
theorem timeseries_directional_lookup_spec (s : TimeSeries V) (t : Int)
    (hs : s.keys.Pairwise (fun a b => a < b)) :
    ((∀ p, last_include_now s t = Except.ok p →
        p ∈ s.items ∧ p.1 ≤ t ∧ ∀ q ∈ s.items, q.1 ≤ t → q.1 ≤ p.1) ∧
      ((last_include_now s t).isOk = false ↔ ∀ q ∈ s.items, ¬ q.1 ≤ t)) ∧
    ((∀ p, last_exclude_now s t = Except.ok p →
        p ∈ s.items ∧ p.1 < t ∧ ∀ q ∈ s.items, q.1 < t → q.1 ≤ p.1) ∧
      ((last_exclude_now s t).isOk = false ↔ ∀ q ∈ s.items, ¬ q.1 < t)) ∧
    ((∀ p, next_include_now s t = Except.ok p →
        p ∈ s.items ∧ t ≤ p.1 ∧ ∀ q ∈ s.items, t ≤ q.1 → p.1 ≤ q.1) ∧
      ((next_include_now s t).isOk = false ↔ ∀ q ∈ s.items, ¬ t ≤ q.1)) ∧
    ((∀ p, next_exclude_now s t = Except.ok p →
        p ∈ s.items ∧ t < p.1 ∧ ∀ q ∈ s.items, t < q.1 → p.1 ≤ q.1) ∧
      ((next_exclude_now s t).isOk = false ↔ ∀ q ∈ s.items, ¬ t < q.1)) := by
  have hmle : ∀ a b : Int, a ≤ b →
      (fun k => decide (k ≤ t)) b = true → (fun k => decide (k ≤ t)) a = true := by
    intro a b hab h
    simp only [decide_eq_true_eq] at h ⊢
    omega
  have hmlt : ∀ a b : Int, a ≤ b →
      (fun k => decide (k < t)) b = true → (fun k => decide (k < t)) a = true := by
    intro a b hab h
    simp only [decide_eq_true_eq] at h ⊢
    omega
  obtain ⟨hok1, herr1⟩ := peek_last_spec s (fun k => decide (k ≤ t)) hs hmle
  obtain ⟨hok2, herr2⟩ := peek_last_spec s (fun k => decide (k < t)) hs hmlt
  obtain ⟨hok3, herr3⟩ := peek_next_spec s (fun k => decide (k < t)) hs hmlt
  obtain ⟨hok4, herr4⟩ := peek_next_spec s (fun k => decide (k ≤ t)) hs hmle
  refine ⟨⟨?_, ?_⟩, ⟨?_, ?_⟩, ⟨?_, ?_⟩, ⟨?_, ?_⟩⟩
  · intro p hp
    obtain ⟨h1, h2, h3⟩ := hok1 p hp
    refine ⟨h1, by simpa using h2, ?_⟩
    intro q hq hqt
    exact h3 q hq (by simpa using hqt)
  · constructor
    · intro h q hq
      simpa using herr1.mp h q hq
    · intro h
      exact herr1.mpr (fun q hq => by simpa using h q hq)
  · intro p hp
    obtain ⟨h1, h2, h3⟩ := hok2 p hp
    refine ⟨h1, by simpa using h2, ?_⟩
    intro q hq hqt
    exact h3 q hq (by simpa using hqt)
  · constructor
    · intro h q hq
      simpa using herr2.mp h q hq
    · intro h
      exact herr2.mpr (fun q hq => by simpa using h q hq)
  · intro p hp
    obtain ⟨h1, h2, h3⟩ := hok3 p hp
    refine ⟨h1, by simpa using h2, ?_⟩
    intro q hq hqt
    refine h3 q hq ?_
    simp only [decide_eq_false_iff_not]
    omega
  · constructor
    · intro h q hq
      have := herr3.mp h q hq
      simp only [decide_eq_true_eq] at this
      omega
    · intro h
      refine herr3.mpr (fun q hq => ?_)
      have := h q hq
      simp only [decide_eq_true_eq]
      omega
  · intro p hp
    obtain ⟨h1, h2, h3⟩ := hok4 p hp
    refine ⟨h1, by simpa using h2, ?_⟩
    intro q hq hqt
    refine h3 q hq ?_
    simp only [decide_eq_false_iff_not]
    omega
  · constructor
    · intro h q hq
      have := herr4.mp h q hq
      simp only [decide_eq_true_eq] at this
      omega
    · intro h
      refine herr4.mpr (fun q hq => ?_)
      have := h q hq
      simp only [decide_eq_true_eq]
      omega

end TimeSeries

/-- The three-entry scenario of the spec: 2024-01-01 (day 19723) → 1,
2024-01-03 (day 19725) → 2, 2024-01-05 (day 19727) → 3. -/
def scenarioSeries : TimeSeries Nat := ⟨[(19723, 1), (19725, 2), (19727, 3)]⟩

/-- C5 (witness): on the three-key scenario, at-or-before 2024-01-04
returns (2024-01-03, 2), strictly-before 2024-01-03 returns
(2024-01-01, 1), at-or-after 2024-01-02 returns (2024-01-03, 2), and
strictly-before the earliest key 2024-01-01 fails out-of-range. -/
theorem timeseries_directional_lookup_spec_witness :
    (List.Pairwise (fun a b => a < b) scenarioSeries.keys ∧
      ((TimeSeries.last_exclude_now scenarioSeries 19723).isOk = false ↔
        ∀ q ∈ scenarioSeries.items, ¬ q.1 < 19723)) ∧
    (TimeSeries.last_include_now scenarioSeries 19726 = Except.ok (19725, 2) ∧
      TimeSeries.last_exclude_now scenarioSeries 19725 = Except.ok (19723, 1) ∧
      TimeSeries.next_include_now scenarioSeries 19724 = Except.ok (19725, 2) ∧
      (TimeSeries.last_exclude_now scenarioSeries 19723).isOk = false) :=
  ⟨⟨by decide,
      (TimeSeries.timeseries_directional_lookup_spec scenarioSeries 19723
          (by decide)).2.1.2⟩,
    ⟨rfl, rfl, rfl, rfl⟩⟩

end TimeManager
